import Mathlib

/-!
Shallow embedding of the thread-local-storage (TLS) shim `src/shims/tls.rs`.

The Rust code keeps, inside the interpreter machine state, a `TlsData`
structure:
  * `next_key : u128` — counter for the next key to allocate (starts at 1);
  * `keys : BTreeMap<TlsKey, TlsEntry>` — the ordered key registry, where a
    `TlsEntry` holds a per-thread value map `data : BTreeMap<ThreadId, Scalar>`
    and an optional destructor `dtor : Option<Instance>`;
  * `global_dtors : BTreeMap<ThreadId, (Instance, Scalar)>` — the single
    per-thread global destructor slot (macOS model);
  * `dtors_running : HashSet<ThreadId>` — the one-way latch of threads whose
    destructor draining has begun.

We embed `BTreeMap<TlsKey, TlsEntry>` as a list of pairs sorted strictly by
key (the sortedness is an invariant of all reachable states; iteration over a
`BTreeMap` range is iteration over the sorted entries).  The per-thread value
maps and the global-dtor map are embedded as association lists with unique
keys; their iteration order is never observed by the code, only lookup,
insert (which in `BTreeMap` replaces the old binding and returns it) and
remove.  Opaque interpreter values are embedded as follows: `ty::Instance`
(a function reference) as `Dtor := Nat`, `ThreadId` as `Nat`, and
`Scalar<Tag>` as an inductive with a distinguished `null` (the code only ever
compares scalars for storage and produces `Scalar::null_ptr` as the sentinel).
`InterpResult` is `Except TlsError`; `throw_ub_format!` becomes
`TlsError.ub` and `throw_unsup_format!` becomes `TlsError.unsup`.  Since the
Rust methods mutate `self`, each embedded operation returns the new `TlsData`
next to its `InterpResult` value, including on the error paths (the Rust
state mutations performed before a `throw_…!` are visible in the returned
state, exactly as they are in the machine state of the interpreter).
-/

/-- TLS keys: `pub type TlsKey = u128`.  Embedded as `Nat`; the `u128`
representation bound `next_key < 2 ^ 128` is carried as a hypothesis where it
matters (the capacity check reads the width). -/
abbrev TlsKey := Nat

/-- Thread identifiers (`ThreadId` in the interpreter). -/
abbrev ThreadId := Nat

/-- Guest function references (`ty::Instance` in the interpreter): opaque. -/
abbrev Dtor := Nat

/-- Interpreter scalars (`Scalar<Tag>`): opaque values with a distinguished
null pointer `Scalar::null_ptr`. -/
inductive Scalar where
  | null : Scalar
  | ptr : Nat → Scalar
deriving DecidableEq, Repr

/-- The two guest-visible error classes of the shim: `throw_ub_format!`
(undefined behaviour) and `throw_unsup_format!` (capacity / unsupported). -/
inductive TlsError where
  | ub : TlsError
  | unsup : TlsError
deriving DecidableEq, Repr

deriving instance DecidableEq for Except

/-- One registry entry (`TlsEntry` in the source): the per-thread data map
and the optional destructor fixed at creation. -/
structure TlsEntry where
  data : List (ThreadId × Scalar)
  dtor : Option Dtor
deriving DecidableEq, Repr

/-- Lookup in an association list keyed by `ThreadId`
(`BTreeMap::get` on `TlsEntry::data`). -/
def dataLookup (t : ThreadId) : List (ThreadId × Scalar) → Option Scalar
  | [] => none
  | (t', v) :: rest => if t = t' then some v else dataLookup t rest

/-- Insert/replace in the per-thread data map (`BTreeMap::insert`). -/
def dataInsert (t : ThreadId) (v : Scalar) : List (ThreadId × Scalar) → List (ThreadId × Scalar)
  | [] => [(t, v)]
  | (t', v') :: rest =>
    if t = t' then (t, v) :: rest else (t', v') :: dataInsert t v rest

/-- Remove from the per-thread data map (`BTreeMap::remove` /
`Entry::remove`): every binding of `t` disappears (the reachable maps bind
each thread at most once, so this is exactly the removal of `t`'s value). -/
def dataErase (t : ThreadId) : List (ThreadId × Scalar) → List (ThreadId × Scalar)
  | [] => []
  | (t', v) :: rest =>
    if t' = t then dataErase t rest else (t', v) :: dataErase t rest

/-- The whole TLS state (`TlsData` in the source). -/
structure TlsData where
  next_key : TlsKey
  keys : List (TlsKey × TlsEntry)
  global_dtors : List (ThreadId × (Dtor × Scalar))
  dtors_running : List ThreadId
deriving DecidableEq, Repr

/-- `TlsData::default`: the counter starts at 1 ("we must not use 0 on
Windows"), everything else empty. -/
def TlsData.default : TlsData :=
  { next_key := 1, keys := [], global_dtors := [], dtors_running := [] }

/-- Lookup of a key in the registry (`self.keys.get(&key)`). -/
def lookupEntry : List (TlsKey × TlsEntry) → TlsKey → Option TlsEntry
  | [], _ => none
  | (k', e) :: rest, k => if k = k' then some e else lookupEntry rest k

/-- Sorted insertion into the registry list: the embedding of
`BTreeMap::insert` on `keys` (replacing on an equal key, which the reachable
states never hit since allocated keys are fresh). -/
def insertEntry (k : TlsKey) (e : TlsEntry) : List (TlsKey × TlsEntry) → List (TlsKey × TlsEntry)
  | [] => [(k, e)]
  | (k', e') :: rest =>
    if k < k' then (k, e) :: (k', e') :: rest
    else if k = k' then (k, e) :: rest
    else (k', e') :: insertEntry k e rest

/-- Removal of a key from the registry (`self.keys.remove(&key)`). -/
def removeEntry (k : TlsKey) : List (TlsKey × TlsEntry) → List (TlsKey × TlsEntry)
  | [] => []
  | (k', e') :: rest =>
    if k = k' then rest else (k', e') :: removeEntry k rest

/-- Lookup in the global-dtor map (`self.global_dtors.get(&thread)`). -/
def globalLookup (t : ThreadId) : List (ThreadId × (Dtor × Scalar)) → Option (Dtor × Scalar)
  | [] => none
  | (t', p) :: rest => if t = t' then some p else globalLookup t rest

/-- Insert/replace in the global-dtor map (`BTreeMap::insert`): the new pair
replaces any old binding of `t`; the Rust call returns the old binding, which
callers recover via `globalLookup` before the insertion. -/
def globalInsert (t : ThreadId) (p : Dtor × Scalar) : List (ThreadId × (Dtor × Scalar)) → List (ThreadId × (Dtor × Scalar))
  | [] => [(t, p)]
  | (t', p') :: rest =>
    if t = t' then (t, p) :: rest else (t', p') :: globalInsert t p rest

/-- `HashSet::insert` on `dtors_running`. -/
def threadInsert (t : ThreadId) (l : List ThreadId) : List ThreadId :=
  if t ∈ l then l else t :: l

/-- `TlsData::create_tls_key`: allocate `next_key`, bump the counter, insert
an empty entry — and only then check the capacity bound
`max_size.bits() < 128 && new_key >= 1 << max_size.bits()`, throwing
`unsup` when it trips.  The state mutations precede the check, exactly as in
the source. -/
def create_tls_key (dtor : Option Dtor) (max_size_bits : Nat) (s : TlsData) :
    TlsData × Except TlsError TlsKey :=
  let new_key := s.next_key
  let s' := { s with
    next_key := s.next_key + 1,
    keys := insertEntry new_key { data := [], dtor := dtor } s.keys }
  if max_size_bits < 128 ∧ new_key ≥ 2 ^ max_size_bits then
    (s', Except.error TlsError.unsup)
  else
    (s', Except.ok new_key)

/-- `TlsData::delete_tls_key`: remove the entry; UB if the key is unknown. -/
def delete_tls_key (key : TlsKey) (s : TlsData) : TlsData × Except TlsError Unit :=
  match lookupEntry s.keys key with
  | some _ => ({ s with keys := removeEntry key s.keys }, Except.ok ())
  | none => (s, Except.error TlsError.ub)

/-- `TlsData::load_tls`: return the stored value for the thread, or the null
sentinel (`Scalar::null_ptr`) when none is stored; UB if the key is
unknown. -/
def load_tls (key : TlsKey) (thread_id : ThreadId) (s : TlsData) :
    Except TlsError Scalar :=
  match lookupEntry s.keys key with
  | some e => Except.ok ((dataLookup thread_id e.data).getD Scalar.null)
  | none => Except.error TlsError.ub

/-- In-place replacement of the entry bound to `k` (the effect of mutating
through `self.keys.get_mut(&key)`): the registry structure and key order are
untouched, only the entry payload changes. -/
def updateEntry (k : TlsKey) (e : TlsEntry) : List (TlsKey × TlsEntry) →
    List (TlsKey × TlsEntry)
  | [] => []
  | (k0, e0) :: rest =>
    if k0 = k then (k, e) :: updateEntry k e rest
    else (k0, e0) :: updateEntry k e rest

/-- `TlsData::store_tls`: set (`Some ptr` ⇒ insert) or clear (`None` ⇒
remove) the per-thread value; UB if the key is unknown. -/
def store_tls (key : TlsKey) (thread_id : ThreadId) (new_data : Option Scalar) (s : TlsData) :
    TlsData × Except TlsError Unit :=
  match lookupEntry s.keys key with
  | some e =>
    let e' := { e with data :=
      match new_data with
      | some v => dataInsert thread_id v e.data
      | none => dataErase thread_id e.data }
    ({ s with keys := updateEntry key e' s.keys }, Except.ok ())
  | none => (s, Except.error TlsError.ub)

/-- `TlsData::set_global_dtor`: UB if draining already started for the
thread; otherwise `BTreeMap::insert` the new pair (replacing any old one) and
report `unsup` when an old pair existed. -/
def set_global_dtor (thread : ThreadId) (dtor : Dtor) (data : Scalar) (s : TlsData) :
    TlsData × Except TlsError Unit :=
  if thread ∈ s.dtors_running then
    (s, Except.error TlsError.ub)
  else
    let old := globalLookup thread s.global_dtors
    let s' := { s with global_dtors := globalInsert thread (dtor, data) s.global_dtors }
    match old with
    | some _ => (s', Except.error TlsError.unsup)
    | none => (s', Except.ok ())

/-- Whether key `k` lies in the `BTreeMap` range `(start, Unbounded)` scanned
by `fetch_tls_dtor`: `start` is `Excluded lastKey` when a key was given and
`Unbounded` otherwise. -/
def afterKey (lastKey : Option TlsKey) (k : TlsKey) : Bool :=
  match lastKey with
  | none => true
  | some lk => lk < k

/-- The body of `TlsData::fetch_tls_dtor`'s loop over
`thread_local.range_mut((start, Unbounded))`, walked over the sorted entry
list.  Entries outside the range are passed over untouched.  For an entry in
the range whose data map has a value for the thread, the value is removed
(`Entry::Occupied(entry) => entry.remove()`); if that entry also has a
destructor the walk stops and returns `(dtor, value, key)`, otherwise the
walk continues (the value stays discarded).  Returns the rewritten entry list
and the optional result. -/
def fetchAux (lastKey : Option TlsKey) (t : ThreadId) :
    List (TlsKey × TlsEntry) →
    List (TlsKey × TlsEntry) × Option (Dtor × Scalar × TlsKey)
  | [] => ([], none)
  | (k, e) :: rest =>
    if afterKey lastKey k then
      match dataLookup t e.data with
      | some v =>
        let e' := { e with data := dataErase t e.data }
        match e.dtor with
        | some d => ((k, e') :: rest, some (d, v, k))
        | none =>
          let (rest', r) := fetchAux lastKey t rest
          ((k, e') :: rest', r)
      | none =>
        let (rest', r) := fetchAux lastKey t rest
        ((k, e) :: rest', r)
    else
      let (rest', r) := fetchAux lastKey t rest
      ((k, e) :: rest', r)

/-- `TlsData::fetch_tls_dtor`: scan the registry from strictly after `key`
(from the beginning when `key` is `none`) and return the next destructor to
run, with its argument and key, draining destructor-less values on the way. -/
def fetch_tls_dtor (key : Option TlsKey) (thread_id : ThreadId) (s : TlsData) :
    TlsData × Option (Dtor × Scalar × TlsKey) :=
  let (keys', r) := fetchAux key thread_id s.keys
  ({ s with keys := keys' }, r)

/-- Observable guest-call events issued by the platform drivers through the
interpreter's `call_function` collaborator. -/
inductive CallEvent where
  | globalDtor (d : Dtor) (arg : Scalar)
  | keyDtor (d : Dtor) (arg : Scalar)
  | winCallback (cb : Dtor) (args : List Scalar)
deriving DecidableEq, Repr

/-- The effect a guest destructor invocation has on the TLS state: running a
guest function (`call_function` + `this.run()`) may call back into the TLS
primitives and mutate `TlsData` arbitrarily.  The drivers are parametrised by
this collaborator. -/
abbrev DtorEffect := Dtor → Scalar → TlsData → TlsData

/-- The `while let Some((instance, ptr, key)) = dtor` loop of
`run_tls_dtors_for_active_thread`: run the destructor (collaborator `act`),
then fetch the next destructor after `key`, restarting from the beginning
when that yields nothing; stop when the restart also yields nothing.  `fuel`
bounds the number of destructor invocations (the Rust loop has no such bound
and may diverge, as its own comment notes); the returned `Bool` is `true`
when the loop exited by itself within the fuel. -/
def drainLoop (act : DtorEffect) (t : ThreadId) :
    Nat → Option (Dtor × Scalar × TlsKey) → TlsData →
    TlsData × List CallEvent × Bool
  | _, none, s => (s, [], true)
  | 0, some _, s => (s, [], false)
  | fuel + 1, some (d, v, k), s =>
    let s1 := act d v s
    let next :=
      match fetch_tls_dtor (some k) t s1 with
      | (s2, some x) => (s2, some x)
      | (s2, none) => fetch_tls_dtor none t s2
    let rest := drainLoop act t fuel next.2 next.1
    (rest.1, CallEvent.keyDtor d v :: rest.2.1, rest.2.2)

/-- `run_tls_dtors_for_active_thread` (the non-Windows path): latch the
thread into `dtors_running`, run the macOS global dtor first if one is set,
then fetch the first per-key destructor and enter the loop.  Returns the
final state, the trace of guest calls in order, and whether the loop
terminated within `fuel`. -/
def run_tls_dtors_for_active_thread (act : DtorEffect) (fuel : Nat)
    (thread_id : ThreadId) (s : TlsData) : TlsData × List CallEvent × Bool :=
  let s0 := { s with dtors_running := threadInsert thread_id s.dtors_running }
  let g :=
    match globalLookup thread_id s0.global_dtors with
    | some (d, a) => (act d a s0, [CallEvent.globalDtor d a])
    | none => (s0, ([] : List CallEvent))
  let first := fetch_tls_dtor none thread_id g.1
  let rest := drainLoop act thread_id fuel first.2 first.1
  (rest.1, g.2 ++ rest.2.1, rest.2.2)

/-- `run_windows_tls_dtors` (the Windows path, active thread 0): latch the
thread, resolve `p_thread_callback` and `DLL_PROCESS_DETACH` through the
collaborators (passed in here as `callback` and `reason`), and call the
callback exactly once with `(null, reason, null)`, consuming no return
value.  No registry scan and no per-key destructor runs on this path. -/
def run_windows_tls_dtors (callback : Dtor) (reason : Scalar)
    (thread_id : ThreadId) (s : TlsData) : TlsData × List CallEvent :=
  ({ s with dtors_running := threadInsert thread_id s.dtors_running },
   [CallEvent.winCallback callback [Scalar.null, reason, Scalar.null]])

/-- The registry invariant: entries are sorted strictly ascending by key
(this is what `BTreeMap` iteration order gives the Rust code). -/
def SortedKeys (l : List (TlsKey × TlsEntry)) : Prop :=
  l.Pairwise (fun a b => a.1 < b.1)

instance (l : List (TlsKey × TlsEntry)) : Decidable (SortedKeys l) :=
  inferInstanceAs (Decidable (l.Pairwise _))

/-- The per-thread value stored under key `k` for thread `t` in an entry
list (`none` when the key is absent or no value is stored). -/
def valueAt (l : List (TlsKey × TlsEntry)) (k : TlsKey) (t : ThreadId) :
    Option Scalar :=
  (lookupEntry l k).bind (fun e => dataLookup t e.data)

/-- The destructor reference of key `k` in an entry list: `none` when the key
is not registered, `some d?` when it is registered with optional destructor
`d?`. -/
def dtorAt (l : List (TlsKey × TlsEntry)) (k : TlsKey) : Option (Option Dtor) :=
  (lookupEntry l k).map TlsEntry.dtor

/-- The per-thread value stored under key `k` for thread `t`, observed on the
whole state. -/
def tlsValue (s : TlsData) (k : TlsKey) (t : ThreadId) : Option Scalar :=
  valueAt s.keys k t

/-- The destructor reference of key `k`, observed on the whole state. -/
def tlsDtor (s : TlsData) (k : TlsKey) : Option (Option Dtor) :=
  dtorAt s.keys k

/-! ### Basic lemmas about the association-list maps -/

/-- Erasing `t` really removes `t`'s value. -/
theorem dataLookup_dataErase_self (t : ThreadId) (l : List (ThreadId × Scalar)) :
    dataLookup t (dataErase t l) = none := by
  induction l with
  | nil => rfl
  | cons p rest ih =>
    obtain ⟨t', v⟩ := p
    by_cases h : t' = t
    · simpa [dataErase, h] using ih
    · have h' : ¬ t = t' := fun hh => h hh.symm
      simpa [dataErase, h, dataLookup, h'] using ih

/-- Erasing `t` does not touch any other thread's value. -/
theorem dataLookup_dataErase_ne (t t' : ThreadId) (h : t' ≠ t)
    (l : List (ThreadId × Scalar)) :
    dataLookup t' (dataErase t l) = dataLookup t' l := by
  induction l with
  | nil => rfl
  | cons p rest ih =>
    obtain ⟨t₀, v⟩ := p
    by_cases h0 : t₀ = t
    · subst h0
      simpa [dataErase, dataLookup, h] using ih
    · by_cases h2 : t' = t₀
      · subst h2
        simp [dataErase, dataLookup, h0]
      · simpa [dataErase, h0, dataLookup, h2] using ih

/-- A freshly inserted key is found by registry lookup. -/
theorem lookupEntry_insertEntry_self (k : TlsKey) (e : TlsEntry)
    (l : List (TlsKey × TlsEntry)) :
    lookupEntry (insertEntry k e l) k = some e := by
  induction l with
  | nil => simp [insertEntry, lookupEntry]
  | cons p rest ih =>
    obtain ⟨k', e'⟩ := p
    by_cases h1 : k < k'
    · simp [insertEntry, h1, lookupEntry]
    · by_cases h2 : k = k'
      · simp [insertEntry, h1, h2, lookupEntry]
      · simpa [insertEntry, h1, h2, lookupEntry] using ih

/-- Lookup after an in-place update: the updated payload is found exactly
when the key was present. -/
theorem lookupEntry_updateEntry (k : TlsKey) (e : TlsEntry)
    (l : List (TlsKey × TlsEntry)) :
    lookupEntry (updateEntry k e l) k = (lookupEntry l k).map (fun _ => e) := by
  induction l with
  | nil => rfl
  | cons p rest ih =>
    obtain ⟨k0, e0⟩ := p
    by_cases h : k0 = k
    · subst h
      simp [updateEntry, lookupEntry]
    · have h' : ¬ k = k0 := fun hh => h hh.symm
      simpa [updateEntry, h, lookupEntry, h'] using ih

/-- Lookup after an in-place update at a different key is unchanged. -/
theorem lookupEntry_updateEntry_ne (k k' : TlsKey) (e : TlsEntry)
    (h : k' ≠ k) (l : List (TlsKey × TlsEntry)) :
    lookupEntry (updateEntry k e l) k' = lookupEntry l k' := by
  induction l with
  | nil => rfl
  | cons p rest ih =>
    obtain ⟨k0, e0⟩ := p
    by_cases h0 : k0 = k
    · subst h0
      simpa [updateEntry, lookupEntry, h] using ih
    · by_cases h2 : k' = k0
      · subst h2
        simp [updateEntry, h0, lookupEntry]
      · simpa [updateEntry, h0, lookupEntry, h2] using ih

/-- An inserted global-dtor pair is found by lookup. -/
theorem globalLookup_globalInsert_self (t : ThreadId) (p : Dtor × Scalar)
    (l : List (ThreadId × (Dtor × Scalar))) :
    globalLookup t (globalInsert t p l) = some p := by
  induction l with
  | nil => simp [globalInsert, globalLookup]
  | cons q rest ih =>
    obtain ⟨t', p'⟩ := q
    by_cases h : t = t'
    · simp [globalInsert, h, globalLookup]
    · simpa [globalInsert, h, globalLookup] using ih

/-- Unfolding `create_tls_key`'s state component: the entry insertion and the
counter bump happen on both the success and the capacity-error path. -/
theorem create_tls_key_fst (d : Option Dtor) (bits : Nat) (s : TlsData) :
    (create_tls_key d bits s).1 =
      { s with
        next_key := s.next_key + 1,
        keys := insertEntry s.next_key { data := [], dtor := d } s.keys } := by
  simp only [create_tls_key]
  split <;> rfl

/-! ### Concrete states used by the scenario claims and witnesses -/

/-- State after three allocations with `max_size.bits() = 2` (keys 1, 2, 3
all live, `next_key = 4`). -/
def cap2s1 : TlsData := (create_tls_key none 2 TlsData.default).1

def cap2s2 : TlsData := (create_tls_key none 2 cap2s1).1

def cap2s3 : TlsData := (create_tls_key none 2 cap2s2).1

/-- The A/B/C scenario state for one thread (thread 0): key 1 = A with
destructor 10 and value `ptr 1`, key 2 = B with no destructor and value
`ptr 2`, key 3 = C with destructor 30 and value `ptr 3`, created in that
order through the shim operations. -/
def abcState : TlsData :=
  let s1 := (create_tls_key (some 10) 120 TlsData.default).1
  let s2 := (create_tls_key none 120 s1).1
  let s3 := (create_tls_key (some 30) 120 s2).1
  let s4 := (store_tls 1 0 (some (Scalar.ptr 1)) s3).1
  let s5 := (store_tls 2 0 (some (Scalar.ptr 2)) s4).1
  (store_tls 3 0 (some (Scalar.ptr 3)) s5).1

/-- Destructors with no effect on the TLS state. -/
def dtorActNoop : DtorEffect := fun _ _ s => s

/-- The variant collaborator: destructor 10 (= `d1`), when invoked, stores
the fresh value `ptr 22` (= `v2'`) under key 2 (= B); other destructors have
no effect. -/
def dtorActStoreB : DtorEffect := fun d _ s =>
  if d = 10 then (store_tls 2 0 (some (Scalar.ptr 22)) s).1 else s

/-- C5: `create_tls_key` fails, with the capacity error `unsup` and never
with UB, exactly when the newly allocated key (the pre-call `next_key`) is
`≥ 2 ^ max_key_bits` — given the `u128` representation bound on the counter
(the Rust guard `max_size.bits() < 128` only short-circuits widths the
128-bit key can never overflow).  Concretely, with `max_key_bits = 2` the
first three allocations return keys 1, 2, 3 and the fourth fails with the
capacity error. -/
theorem create_tls_key_capacity_boundary :
    (∀ (s : TlsData) (d : Option Dtor) (bits : Nat), s.next_key < 2 ^ 128 →
      (((create_tls_key d bits s).2 = Except.error TlsError.unsup ↔
          2 ^ bits ≤ s.next_key) ∧
        ((create_tls_key d bits s).2 = Except.error TlsError.unsup ∨
          (create_tls_key d bits s).2 = Except.ok s.next_key))) ∧
    (create_tls_key none 2 TlsData.default).2 = Except.ok 1 ∧
    (create_tls_key none 2 cap2s1).2 = Except.ok 2 ∧
    (create_tls_key none 2 cap2s2).2 = Except.ok 3 ∧
    (create_tls_key none 2 cap2s3).2 = Except.error TlsError.unsup := by
  refine ⟨?_, by decide, by decide, by decide, by decide⟩
  intro s d bits h
  by_cases hc : bits < 128 ∧ 2 ^ bits ≤ s.next_key
  · constructor
    · simp [create_tls_key, hc, hc.2]
    · left
      simp [create_tls_key, hc]
  · have hnot : ¬ 2 ^ bits ≤ s.next_key := by
      intro hle
      apply hc
      refine ⟨?_, hle⟩
      by_contra hb
      push_neg at hb
      exact absurd (le_trans (Nat.pow_le_pow_right (by norm_num) hb) hle)
        (not_le.mpr h)
    constructor
    · simp [create_tls_key, hc, hnot]
    · right
      simp [create_tls_key, hc]

/-- Witness for C5 at a concrete input: from the state with `next_key = 4`
and `max_key_bits = 2` the boundary condition holds and the call fails. -/
theorem create_tls_key_capacity_boundary_witness :
    cap2s3.next_key < 2 ^ 128 ∧
    ((create_tls_key none 2 cap2s3).2 = Except.error TlsError.unsup ↔
      2 ^ 2 ≤ cap2s3.next_key) :=
  ⟨by decide, (create_tls_key_capacity_boundary.1 cap2s3 none 2 (by decide)).1⟩

/-- C7: `delete`, `load` and `store` on a key that is not currently
registered (never created or already deleted) all fail with the UB
unknown-key error, and all succeed on a currently registered key. -/
theorem unknown_key_ub_spec :
    ∀ (s : TlsData) (k : TlsKey) (t : ThreadId) (v : Option Scalar),
      (lookupEntry s.keys k = none →
        (delete_tls_key k s).2 = Except.error TlsError.ub ∧
        load_tls k t s = Except.error TlsError.ub ∧
        (store_tls k t v s).2 = Except.error TlsError.ub) ∧
      (lookupEntry s.keys k ≠ none →
        (delete_tls_key k s).2 = Except.ok () ∧
        (∃ r, load_tls k t s = Except.ok r) ∧
        (store_tls k t v s).2 = Except.ok ()) := by
  intro s k t v
  constructor
  · intro h
    refine ⟨?_, ?_, ?_⟩ <;> simp [delete_tls_key, load_tls, store_tls, h]
  · intro h
    obtain ⟨e, he⟩ := Option.ne_none_iff_exists'.mp h
    refine ⟨?_, ⟨(dataLookup t e.data).getD Scalar.null, ?_⟩, ?_⟩ <;>
      simp [delete_tls_key, load_tls, store_tls, he]

/-- Witness for C7: the default state has no key 5, so all three operations
report UB there; in `abcState` key 2 is registered and all three succeed. -/
theorem unknown_key_ub_spec_witness :
    (lookupEntry TlsData.default.keys 5 = none ∧
      (delete_tls_key 5 TlsData.default).2 = Except.error TlsError.ub ∧
      load_tls 5 0 TlsData.default = Except.error TlsError.ub ∧
      (store_tls 5 0 none TlsData.default).2 = Except.error TlsError.ub) ∧
    (lookupEntry abcState.keys 2 ≠ none ∧
      (delete_tls_key 2 abcState).2 = Except.ok () ∧
      (∃ r, load_tls 2 0 abcState = Except.ok r) ∧
      (store_tls 2 0 none abcState).2 = Except.ok ()) :=
  ⟨⟨by decide, (unknown_key_ub_spec TlsData.default 5 0 none).1 (by decide)⟩,
   ⟨by decide, (unknown_key_ub_spec abcState 2 0 none).2 (by decide)⟩⟩

/-- C8: on a registered key, `load` returns the null sentinel as a success
when no value is stored for the thread, and a `store` of `none` (clearing)
followed by a `load` also returns the null sentinel: a cleared slot is
indistinguishable from one never stored. -/
theorem load_null_sentinel_spec :
    ∀ (s : TlsData) (k : TlsKey) (t : ThreadId),
      lookupEntry s.keys k ≠ none →
      (tlsValue s k t = none → load_tls k t s = Except.ok Scalar.null) ∧
      load_tls k t (store_tls k t none s).1 = Except.ok Scalar.null := by
  intro s k t h
  obtain ⟨e, he⟩ := Option.ne_none_iff_exists'.mp h
  constructor
  · intro hv
    rw [tlsValue, valueAt, he] at hv
    simp only [Option.some_bind] at hv
    simp [load_tls, he, hv]
  · simp [store_tls, he, load_tls, lookupEntry_updateEntry,
      dataLookup_dataErase_self]

/-- Witness for C8 on `abcState`: key 2 is registered, thread 7 has no value
under it, and clearing thread 0's value makes its load return null. -/
theorem load_null_sentinel_spec_witness :
    lookupEntry abcState.keys 2 ≠ none ∧
    tlsValue abcState 2 7 = none ∧
    load_tls 2 7 abcState = Except.ok Scalar.null ∧
    load_tls 2 0 (store_tls 2 0 none abcState).1 = Except.ok Scalar.null :=
  ⟨by decide, by decide,
   (load_null_sentinel_spec abcState 2 7 (by decide)).1 (by decide),
   (load_null_sentinel_spec abcState 2 0 (by decide)).2⟩

/-- C10: when `create_tls_key` fails with the capacity error, the state has
already changed: the over-limit key (the pre-call `next_key`) is registered
with an empty entry, the counter is bumped, the key is usable by
`load`/`store`/`delete`, and any key returned by a subsequent successful
`create` is strictly larger — the failed allocation is not atomic. -/
theorem create_tls_key_failure_not_atomic :
    ∀ (s : TlsData) (d : Option Dtor) (bits : Nat) (t : ThreadId),
      (create_tls_key d bits s).2 = Except.error TlsError.unsup →
      lookupEntry (create_tls_key d bits s).1.keys s.next_key =
        some { data := [], dtor := d } ∧
      (create_tls_key d bits s).1.next_key = s.next_key + 1 ∧
      load_tls s.next_key t (create_tls_key d bits s).1 = Except.ok Scalar.null ∧
      (store_tls s.next_key t (some (Scalar.ptr 0)) (create_tls_key d bits s).1).2 =
        Except.ok () ∧
      (delete_tls_key s.next_key (create_tls_key d bits s).1).2 = Except.ok () ∧
      (∀ (d2 : Option Dtor) (b2 : Nat) (k2 : TlsKey),
        (create_tls_key d2 b2 (create_tls_key d bits s).1).2 = Except.ok k2 →
        s.next_key < k2) := by
  intro s d bits t _
  have hk : lookupEntry (create_tls_key d bits s).1.keys s.next_key =
      some { data := [], dtor := d } := by
    rw [create_tls_key_fst]
    exact lookupEntry_insertEntry_self _ _ _
  refine ⟨hk, ?_, ?_, ?_, ?_, ?_⟩
  · rw [create_tls_key_fst]
  · simp [load_tls, hk, dataLookup]
  · simp [store_tls, hk]
  · simp [delete_tls_key, hk]
  · intro d2 b2 k2 h2
    have hval : k2 = (create_tls_key d bits s).1.next_key := by
      revert h2
      generalize (create_tls_key d bits s).1 = s1
      simp only [create_tls_key]
      split
      · intro h2
        exact absurd h2 (by simp)
      · intro h2
        simpa using h2.symm
    have hnext : (create_tls_key d bits s).1.next_key = s.next_key + 1 := by
      rw [create_tls_key_fst]
    rw [hval, hnext]
    exact Nat.lt_succ_self _

/-- Witness for C10: the fourth allocation with `max_key_bits = 2` fails,
yet key 4 is registered afterwards and the counter reads 5. -/
theorem create_tls_key_failure_not_atomic_witness :
    (create_tls_key none 2 cap2s3).2 = Except.error TlsError.unsup ∧
    lookupEntry (create_tls_key none 2 cap2s3).1.keys cap2s3.next_key =
      some { data := [], dtor := none } ∧
    (create_tls_key none 2 cap2s3).1.next_key = cap2s3.next_key + 1 :=
  ⟨by decide,
   (create_tls_key_failure_not_atomic cap2s3 none 2 0 (by decide)).1,
   (create_tls_key_failure_not_atomic cap2s3 none 2 0 (by decide)).2.1⟩

/-- C4 (amended): `set_global_dtor` fails with UB when the thread is already
draining (leaving the state unchanged); it fails with the
capacity/unsupported error when a pair is already installed — but then the
new pair has nevertheless replaced the old one, because the `BTreeMap`
insertion happens before the already-exists check; and it installs the pair
with success in the remaining case. -/
theorem set_global_dtor_spec :
    ∀ (s : TlsData) (t : ThreadId) (d : Dtor) (a : Scalar),
      (t ∈ s.dtors_running →
        set_global_dtor t d a s = (s, Except.error TlsError.ub)) ∧
      (t ∉ s.dtors_running → globalLookup t s.global_dtors ≠ none →
        (set_global_dtor t d a s).2 = Except.error TlsError.unsup ∧
        globalLookup t (set_global_dtor t d a s).1.global_dtors = some (d, a)) ∧
      (t ∉ s.dtors_running → globalLookup t s.global_dtors = none →
        (set_global_dtor t d a s).2 = Except.ok () ∧
        globalLookup t (set_global_dtor t d a s).1.global_dtors = some (d, a)) := by
  intro s t d a
  refine ⟨?_, ?_, ?_⟩
  · intro h
    simp [set_global_dtor, h]
  · intro h hg
    obtain ⟨p, hp⟩ := Option.ne_none_iff_exists'.mp hg
    simp [set_global_dtor, h, hp, globalLookup_globalInsert_self]
  · intro h hg
    simp [set_global_dtor, h, hg, globalLookup_globalInsert_self]

/-- Witness for C4: with thread 0 not draining and a pair already installed,
the call reports the capacity error and the newly supplied pair is found. -/
theorem set_global_dtor_spec_witness :
    (0 : ThreadId) ∉ ([] : List ThreadId) ∧
    globalLookup 0 [((0 : ThreadId), ((1 : Dtor), Scalar.null))] ≠ none ∧
    ((set_global_dtor 0 2 (Scalar.ptr 7)
        { next_key := 1, keys := [], global_dtors := [(0, (1, Scalar.null))],
          dtors_running := [] }).2 = Except.error TlsError.unsup ∧
      globalLookup 0 (set_global_dtor 0 2 (Scalar.ptr 7)
        { next_key := 1, keys := [], global_dtors := [(0, (1, Scalar.null))],
          dtors_running := [] }).1.global_dtors = some (2, Scalar.ptr 7)) :=
  ⟨by decide, by decide,
   (set_global_dtor_spec
     { next_key := 1, keys := [], global_dtors := [(0, (1, Scalar.null))],
       dtors_running := [] } 0 2 (Scalar.ptr 7)).2.1 (by decide) (by decide)⟩

/-- Counterexample to C4 as stated: when the already-exists error is raised,
the previously installed pair is NOT left unchanged — at this concrete input
the stored pair after the failing call differs from the pair stored before
it (the new pair has replaced it). -/
theorem set_global_dtor_unchanged_cex :
    (set_global_dtor 0 2 (Scalar.ptr 7)
      { next_key := 1, keys := [], global_dtors := [(0, (1, Scalar.null))],
        dtors_running := [] }).2 = Except.error TlsError.unsup ∧
    globalLookup 0 (set_global_dtor 0 2 (Scalar.ptr 7)
      { next_key := 1, keys := [], global_dtors := [(0, (1, Scalar.null))],
        dtors_running := [] }).1.global_dtors ≠ some (1, Scalar.null) := by
  decide

/-- C9: one Windows draining session issues exactly one guest call: the
resolved thread callback with the three arguments
`(null handle, detach reason, null reserved pointer)`; the registry, the
per-thread values, the global-dtor slots and the key counter are untouched
(no per-key scanning), and no per-key or global destructor event occurs,
whatever the state holds. -/
theorem run_windows_tls_dtors_spec :
    ∀ (cb : Dtor) (reason : Scalar) (t : ThreadId) (s : TlsData),
      (run_windows_tls_dtors cb reason t s).2 =
        [CallEvent.winCallback cb [Scalar.null, reason, Scalar.null]] ∧
      (run_windows_tls_dtors cb reason t s).1.keys = s.keys ∧
      (run_windows_tls_dtors cb reason t s).1.global_dtors = s.global_dtors ∧
      (run_windows_tls_dtors cb reason t s).1.next_key = s.next_key ∧
      (∀ (d : Dtor) (a : Scalar),
        CallEvent.keyDtor d a ∉ (run_windows_tls_dtors cb reason t s).2 ∧
        CallEvent.globalDtor d a ∉ (run_windows_tls_dtors cb reason t s).2) := by
  intro cb reason t s
  refine ⟨rfl, rfl, rfl, rfl, ?_⟩
  intro d a
  constructor <;> simp [run_windows_tls_dtors]

/-- C2 (amended): in the A/B/C scenario, draining thread 0 invokes exactly
two destructors — `d1` (= 10) with sole argument `v1` (= `ptr 1`) and then
`d3` (= 30) with sole argument `v3` (= `ptr 3`) — and B's value is cleared
without any function being invoked.  In the variant where `d1` stores the
fresh value `v2'` (= `ptr 22`) under B, draining still performs exactly the
same two destructor invocations; B's fresh value is present right after `d1`
runs and is already drained, silently, by the scan that resumes after A (the
pass that returns `d3`), so the final restart scan finds nothing. -/
theorem drain_scenario_two_invocations :
    (run_tls_dtors_for_active_thread dtorActNoop 10 0 abcState).2.1 =
      [CallEvent.keyDtor 10 (Scalar.ptr 1), CallEvent.keyDtor 30 (Scalar.ptr 3)] ∧
    (run_tls_dtors_for_active_thread dtorActNoop 10 0 abcState).2.2 = true ∧
    tlsValue (run_tls_dtors_for_active_thread dtorActNoop 10 0 abcState).1 2 0 =
      none ∧
    (run_tls_dtors_for_active_thread dtorActStoreB 10 0 abcState).2.1 =
      [CallEvent.keyDtor 10 (Scalar.ptr 1), CallEvent.keyDtor 30 (Scalar.ptr 3)] ∧
    (run_tls_dtors_for_active_thread dtorActStoreB 10 0 abcState).2.2 = true ∧
    tlsValue (dtorActStoreB 10 (Scalar.ptr 1)
        (fetch_tls_dtor none 0 abcState).1) 2 0 = some (Scalar.ptr 22) ∧
    (fetch_tls_dtor (some 1) 0 (dtorActStoreB 10 (Scalar.ptr 1)
        (fetch_tls_dtor none 0 abcState).1)).2 = some (30, Scalar.ptr 3, 3) ∧
    tlsValue (fetch_tls_dtor (some 1) 0 (dtorActStoreB 10 (Scalar.ptr 1)
        (fetch_tls_dtor none 0 abcState).1)).1 2 0 = none ∧
    tlsValue (run_tls_dtors_for_active_thread dtorActStoreB 10 0 abcState).1 2 0 =
      none := by
  decide

/-- Counterexample to C2 as stated: in the variant scenario, B's freshly
stored value is NOT found on the restart pass.  After `d1` completes, the
scan that resumes after A already drains `v2'` (B's value is gone in the
state in which that scan returns `d3`), so by the time the scan after C
yields nothing and the restart pass runs, there is no value under B for the
restart to find — the restart pass starts with B empty and returns nothing
on an unchanged state. -/
theorem drain_scenario_restart_pass_cex :
    tlsValue (dtorActStoreB 10 (Scalar.ptr 1)
        (fetch_tls_dtor none 0 abcState).1) 2 0 = some (Scalar.ptr 22) ∧
    tlsValue (fetch_tls_dtor (some 1) 0 (dtorActStoreB 10 (Scalar.ptr 1)
        (fetch_tls_dtor none 0 abcState).1)).1 2 0 = none ∧
    (fetch_tls_dtor (some 3) 0 (fetch_tls_dtor (some 1) 0 (dtorActStoreB 10
        (Scalar.ptr 1) (fetch_tls_dtor none 0 abcState).1)).1).2 = none ∧
    tlsValue (fetch_tls_dtor (some 3) 0 (fetch_tls_dtor (some 1) 0
        (dtorActStoreB 10 (Scalar.ptr 1)
          (fetch_tls_dtor none 0 abcState).1)).1).1 2 0 = none ∧
    fetch_tls_dtor none 0 (fetch_tls_dtor (some 3) 0 (fetch_tls_dtor (some 1) 0
        (dtorActStoreB 10 (Scalar.ptr 1)
          (fetch_tls_dtor none 0 abcState).1)).1).1 =
      ((fetch_tls_dtor (some 3) 0 (fetch_tls_dtor (some 1) 0 (dtorActStoreB 10
        (Scalar.ptr 1) (fetch_tls_dtor none 0 abcState).1)).1).1, none) := by
  decide

/-! ### Lemmas about the `fetch_tls_dtor` scan -/

/-- A key smaller than every key of the list is not found. -/
theorem lookupEntry_eq_none_of_forall_lt (k : TlsKey)
    (l : List (TlsKey × TlsEntry)) (h : ∀ p ∈ l, k < p.1) :
    lookupEntry l k = none := by
  induction l with
  | nil => rfl
  | cons p rest ih =>
    obtain ⟨k0, e0⟩ := p
    have hk0 : k < k0 := h (k0, e0) (List.mem_cons_self _ _)
    have hne : ¬ k = k0 := Nat.ne_of_lt hk0
    simpa [lookupEntry, hne] using ih (fun q hq => h q (List.mem_cons_of_mem _ hq))

/-- `fetch_tls_dtor` as a pair of projections of `fetchAux`. -/
theorem fetch_tls_dtor_eq (lk : Option TlsKey) (t : ThreadId) (s : TlsData) :
    fetch_tls_dtor lk t s =
      ({ s with keys := (fetchAux lk t s.keys).1 }, (fetchAux lk t s.keys).2) := by
  cases h : fetchAux lk t s.keys
  simp [fetch_tls_dtor, h]

/-- The scan never adds or removes a registry key. -/
theorem fetchAux_map_fst (lk : Option TlsKey) (t : ThreadId)
    (l : List (TlsKey × TlsEntry)) :
    ((fetchAux lk t l).1).map Prod.fst = l.map Prod.fst := by
  induction l with
  | nil => rfl
  | cons p rest ih =>
    obtain ⟨k0, e0⟩ := p
    cases ha : afterKey lk k0 with
    | false =>
      cases hF : fetchAux lk t rest with
      | mk rest' r =>
        rw [hF] at ih
        simp only [fetchAux, ha]
        simpa [hF] using ih
    | true =>
      cases hd : dataLookup t e0.data with
      | some v =>
        cases hdt : e0.dtor with
        | some d => simp [fetchAux, ha, hd, hdt]
        | none =>
          cases hF : fetchAux lk t rest with
          | mk rest' r =>
            rw [hF] at ih
            simp only [fetchAux, ha, hd, hdt]
            simpa [hF] using ih
      | none =>
        cases hF : fetchAux lk t rest with
        | mk rest' r =>
          rw [hF] at ih
          simp only [fetchAux, ha, hd]
          simpa [hF] using ih

/-- The scan never changes any entry's destructor reference. -/
theorem fetchAux_dtorAt (lk : Option TlsKey) (t : ThreadId)
    (l : List (TlsKey × TlsEntry)) (k : TlsKey) :
    dtorAt (fetchAux lk t l).1 k = dtorAt l k := by
  induction l with
  | nil => rfl
  | cons p rest ih =>
    obtain ⟨k0, e0⟩ := p
    cases ha : afterKey lk k0 with
    | false =>
      cases hF : fetchAux lk t rest with
      | mk rest' r =>
        rw [hF] at ih
        simp only [fetchAux, ha]
        by_cases hk : k = k0 <;> simpa [hF, dtorAt, lookupEntry, hk] using ih
    | true =>
      cases hd : dataLookup t e0.data with
      | some v =>
        cases hdt : e0.dtor with
        | some d =>
          by_cases hk : k = k0 <;> simp [fetchAux, ha, hd, hdt, dtorAt, lookupEntry, hk]
        | none =>
          cases hF : fetchAux lk t rest with
          | mk rest' r =>
            rw [hF] at ih
            simp only [fetchAux, ha, hd, hdt]
            by_cases hk : k = k0
            · simp [hF, dtorAt, lookupEntry, hk, hdt]
            · simpa [hF, dtorAt, lookupEntry, hk] using ih
      | none =>
        cases hF : fetchAux lk t rest with
        | mk rest' r =>
          rw [hF] at ih
          simp only [fetchAux, ha, hd]
          by_cases hk : k = k0 <;> simpa [hF, dtorAt, lookupEntry, hk] using ih

/-- The scan never touches another thread's values. -/
theorem fetchAux_other_thread (lk : Option TlsKey) (t : ThreadId)
    (l : List (TlsKey × TlsEntry)) (k : TlsKey) (t' : ThreadId) (h : t' ≠ t) :
    valueAt (fetchAux lk t l).1 k t' = valueAt l k t' := by
  induction l with
  | nil => rfl
  | cons p rest ih =>
    obtain ⟨k0, e0⟩ := p
    cases ha : afterKey lk k0 with
    | false =>
      cases hF : fetchAux lk t rest with
      | mk rest' r =>
        rw [hF] at ih
        simp only [fetchAux, ha]
        by_cases hk : k = k0 <;> simpa [hF, valueAt, lookupEntry, hk] using ih
    | true =>
      cases hd : dataLookup t e0.data with
      | some v =>
        cases hdt : e0.dtor with
        | some d =>
          by_cases hk : k = k0 <;>
            simp [fetchAux, ha, hd, hdt, valueAt, lookupEntry, hk,
              dataLookup_dataErase_ne t t' h]
        | none =>
          cases hF : fetchAux lk t rest with
          | mk rest' r =>
            rw [hF] at ih
            simp only [fetchAux, ha, hd, hdt]
            by_cases hk : k = k0 <;>
              simpa [hF, valueAt, lookupEntry, hk,
                dataLookup_dataErase_ne t t' h] using ih
      | none =>
        cases hF : fetchAux lk t rest with
        | mk rest' r =>
          rw [hF] at ih
          simp only [fetchAux, ha, hd]
          by_cases hk : k = k0 <;> simpa [hF, valueAt, lookupEntry, hk] using ih

/-- Entries at keys outside the scanned range (at or before `lastKey`) are
untouched by the scan. -/
theorem fetchAux_outside_range (lk : Option TlsKey) (t : ThreadId)
    (l : List (TlsKey × TlsEntry)) (k : TlsKey) (h : afterKey lk k = false) :
    lookupEntry (fetchAux lk t l).1 k = lookupEntry l k := by
  induction l with
  | nil => rfl
  | cons p rest ih =>
    obtain ⟨k0, e0⟩ := p
    cases ha : afterKey lk k0 with
    | false =>
      cases hF : fetchAux lk t rest with
      | mk rest' r =>
        rw [hF] at ih
        simp only [fetchAux, ha]
        by_cases hk : k = k0 <;> simpa [hF, lookupEntry, hk] using ih
    | true =>
      have hk : ¬ k = k0 := by
        intro hkk
        rw [← hkk, h] at ha
        exact Bool.false_ne_true ha
      cases hd : dataLookup t e0.data with
      | some v =>
        cases hdt : e0.dtor with
        | some d => simp [fetchAux, ha, hd, hdt, lookupEntry, hk]
        | none =>
          cases hF : fetchAux lk t rest with
          | mk rest' r =>
            rw [hF] at ih
            simp only [fetchAux, ha, hd, hdt]
            simpa [hF, lookupEntry, hk] using ih
      | none =>
        cases hF : fetchAux lk t rest with
        | mk rest' r =>
          rw [hF] at ih
          simp only [fetchAux, ha, hd]
          simpa [hF, lookupEntry, hk] using ih

/-- A successful registry lookup exhibits a member of the list. -/
theorem lookupEntry_mem (l : List (TlsKey × TlsEntry)) (k : TlsKey)
    (e : TlsEntry) (h : lookupEntry l k = some e) : (k, e) ∈ l := by
  induction l with
  | nil => exact absurd h (by simp [lookupEntry])
  | cons p rest ih =>
    obtain ⟨k0, e0⟩ := p
    by_cases hk : k = k0
    · subst hk
      rw [lookupEntry, if_pos rfl] at h
      cases h
      exact List.mem_cons_self _ _
    · rw [lookupEntry, if_neg hk] at h
      exact List.mem_cons_of_mem _ (ih h)

/-- When the scan comes back empty it has removed the thread's value under
every key in the scanned range, and any such key that held a value has no
destructor (its value was discarded without being returned). -/
theorem fetchAux_none_spec (lk : Option TlsKey) (t : ThreadId) :
    ∀ (l : List (TlsKey × TlsEntry)), (fetchAux lk t l).2 = none →
      ∀ k', afterKey lk k' = true →
        valueAt (fetchAux lk t l).1 k' t = none ∧
        (valueAt l k' t ≠ none → dtorAt l k' = some none) := by
  intro l
  induction l with
  | nil =>
    intro _ k' _
    exact ⟨rfl, fun h => absurd rfl h⟩
  | cons p rest ih =>
    obtain ⟨k0, e0⟩ := p
    intro hres k' hk'
    cases ha : afterKey lk k0 with
    | false =>
      cases hF : fetchAux lk t rest with
      | mk rest' r =>
        simp [fetchAux, ha, hF] at hres ⊢
        have hne : ¬ k' = k0 := by
          intro h
          rw [h] at hk'
          exact Bool.noConfusion (hk'.symm.trans ha)
        have hres2 : (fetchAux lk t rest).2 = none := by rw [hF]; exact hres
        have := ih hres2 k' hk'
        rw [hF] at this
        constructor
        · simpa [valueAt, lookupEntry, hne] using this.1
        · intro hv
          rw [valueAt, lookupEntry, if_neg hne] at hv
          rw [dtorAt, lookupEntry, if_neg hne]
          exact this.2 hv
    | true =>
      cases hd : dataLookup t e0.data with
      | some v0 =>
        cases hdt : e0.dtor with
        | some d0 =>
          simp [fetchAux, ha, hd, hdt] at hres
        | none =>
          cases hF : fetchAux lk t rest with
          | mk rest' r =>
            simp [fetchAux, ha, hd, hdt, hF] at hres ⊢
            by_cases hne : k' = k0
            · subst hne
              constructor
              · simp [valueAt, lookupEntry, dataLookup_dataErase_self]
              · intro _
                simp [dtorAt, lookupEntry, hdt]
            · have hres2 : (fetchAux lk t rest).2 = none := by rw [hF]; exact hres
              have := ih hres2 k' hk'
              rw [hF] at this
              constructor
              · simpa [valueAt, lookupEntry, hne] using this.1
              · intro hv
                rw [valueAt, lookupEntry, if_neg hne] at hv
                rw [dtorAt, lookupEntry, if_neg hne]
                exact this.2 hv
      | none =>
        cases hF : fetchAux lk t rest with
        | mk rest' r =>
          simp [fetchAux, ha, hd, hF] at hres ⊢
          by_cases hne : k' = k0
          · subst hne
            constructor
            · simp [valueAt, lookupEntry, hd]
            · intro hv
              rw [valueAt, lookupEntry, if_pos rfl] at hv
              simp only [Option.some_bind] at hv
              exact absurd hd hv
          · have hres2 : (fetchAux lk t rest).2 = none := by rw [hF]; exact hres
            have := ih hres2 k' hk'
            rw [hF] at this
            constructor
            · simpa [valueAt, lookupEntry, hne] using this.1
            · intro hv
              rw [valueAt, lookupEntry, if_neg hne] at hv
              rw [dtorAt, lookupEntry, if_neg hne]
              exact this.2 hv

/-- When the scan (over a sorted registry) returns `(d, v, k)`: `k` lies
strictly after `lastKey`, holds destructor `d` and held value `v` for the
thread; the value at `k` is removed; every scanned key before `k` has its
value removed and, if it held one, carries no destructor (so `k` is the
first key after `lastKey` holding both a value and a destructor); and every
entry after `k` is untouched. -/
theorem fetchAux_some_spec (lk : Option TlsKey) (t : ThreadId) :
    ∀ (l : List (TlsKey × TlsEntry)), SortedKeys l →
      ∀ (d : Dtor) (v : Scalar) (k : TlsKey),
        (fetchAux lk t l).2 = some (d, v, k) →
        afterKey lk k = true ∧
        dtorAt l k = some (some d) ∧
        valueAt l k t = some v ∧
        valueAt (fetchAux lk t l).1 k t = none ∧
        (∀ k', afterKey lk k' = true → k' < k →
          valueAt (fetchAux lk t l).1 k' t = none ∧
          (valueAt l k' t ≠ none → dtorAt l k' = some none)) ∧
        (∀ k', k < k' → lookupEntry (fetchAux lk t l).1 k' = lookupEntry l k') := by
  intro l
  induction l with
  | nil =>
    intro _ d v k hres
    exact absurd hres (by simp [fetchAux])
  | cons p rest ih =>
    obtain ⟨k0, e0⟩ := p
    intro hs d v k hres
    rw [SortedKeys, List.pairwise_cons] at hs
    obtain ⟨hp, hs'⟩ := hs
    cases ha : afterKey lk k0 with
    | false =>
      cases hF : fetchAux lk t rest with
      | mk rest' r =>
        simp [fetchAux, ha, hF] at hres ⊢
        have hres2 : (fetchAux lk t rest).2 = some (d, v, k) := by
          rw [hF]; exact hres
        have IH := ih hs' d v k hres2
        rw [hF] at IH
        obtain ⟨IH1, IH2, IH3, IH4, IH5, IH6⟩ := IH
        have hkk0 : ¬ k = k0 := by
          intro h
          rw [h, ha] at IH1
          exact Bool.noConfusion IH1
        refine ⟨IH1, ?_, ?_, ?_, ?_, ?_⟩
        · simpa [dtorAt, lookupEntry, hkk0] using IH2
        · simpa [valueAt, lookupEntry, hkk0] using IH3
        · simpa [valueAt, lookupEntry, hkk0] using IH4
        · intro k' hk' hklt
          have hk'0 : ¬ k' = k0 := by
            intro h
            rw [h, ha] at hk'
            exact Bool.noConfusion hk'
          have hI := IH5 k' hk' hklt
          constructor
          · simpa [valueAt, lookupEntry, hk'0] using hI.1
          · intro hv
            rw [valueAt, lookupEntry, if_neg hk'0] at hv
            rw [dtorAt, lookupEntry, if_neg hk'0]
            exact hI.2 hv
        · intro k' hk'
          by_cases h0 : k' = k0
          · subst h0
            simp [lookupEntry]
          · simpa [lookupEntry, h0] using IH6 k' hk'
    | true =>
      cases hd : dataLookup t e0.data with
      | some v0 =>
        cases hdt : e0.dtor with
        | some d0 =>
          simp [fetchAux, ha, hd, hdt] at hres ⊢
          obtain ⟨h1, h2, h3⟩ := hres
          subst h1
          subst h2
          subst h3
          refine ⟨ha, ?_, ?_, ?_, ?_, ?_⟩
          · simp [dtorAt, lookupEntry, hdt]
          · simp [valueAt, lookupEntry, hd]
          · simp [valueAt, lookupEntry, dataLookup_dataErase_self]
          · intro k' hk' hklt
            have hnot : lookupEntry rest k' = none :=
              lookupEntry_eq_none_of_forall_lt k' rest
                (fun q hq => lt_trans hklt (hp q hq))
            have hne : ¬ k' = k0 := Nat.ne_of_lt hklt
            constructor
            · simp [valueAt, lookupEntry, hne, hnot]
            · intro hv
              rw [valueAt, lookupEntry, if_neg hne, hnot] at hv
              exact absurd rfl hv
          · intro k' hk'
            have hne : ¬ k' = k0 := by
              intro h
              rw [h] at hk'
              exact Nat.lt_irrefl _ hk'
            simp [lookupEntry, hne]
        | none =>
          cases hF : fetchAux lk t rest with
          | mk rest' r =>
            simp [fetchAux, ha, hd, hdt, hF] at hres ⊢
            have hres2 : (fetchAux lk t rest).2 = some (d, v, k) := by
              rw [hF]; exact hres
            have IH := ih hs' d v k hres2
            rw [hF] at IH
            obtain ⟨IH1, IH2, IH3, IH4, IH5, IH6⟩ := IH
            have hlk : lookupEntry rest k ≠ none := by
              intro hn
              rw [valueAt, hn] at IH3
              exact Option.noConfusion IH3
            obtain ⟨e1, he1⟩ := Option.ne_none_iff_exists'.mp hlk
            have hk0k : k0 < k := hp (k, e1) (lookupEntry_mem rest k e1 he1)
            have hkk0 : ¬ k = k0 := by
              intro h
              rw [h] at hk0k
              exact Nat.lt_irrefl _ hk0k
            refine ⟨IH1, ?_, ?_, ?_, ?_, ?_⟩
            · simpa [dtorAt, lookupEntry, hkk0] using IH2
            · simpa [valueAt, lookupEntry, hkk0] using IH3
            · simpa [valueAt, lookupEntry, hkk0] using IH4
            · intro k' hk' hklt
              by_cases h0 : k' = k0
              · subst h0
                constructor
                · simp [valueAt, lookupEntry, dataLookup_dataErase_self]
                · intro _
                  simp [dtorAt, lookupEntry, hdt]
              · have hI := IH5 k' hk' hklt
                constructor
                · simpa [valueAt, lookupEntry, h0] using hI.1
                · intro hv
                  rw [valueAt, lookupEntry, if_neg h0] at hv
                  rw [dtorAt, lookupEntry, if_neg h0]
                  exact hI.2 hv
            · intro k' hk'
              have h0 : ¬ k' = k0 := by
                intro h
                rw [h] at hk'
                exact Nat.lt_irrefl _ (Nat.lt_trans hk0k hk')
              simpa [lookupEntry, h0] using IH6 k' hk'
      | none =>
        cases hF : fetchAux lk t rest with
        | mk rest' r =>
          simp [fetchAux, ha, hd, hF] at hres ⊢
          have hres2 : (fetchAux lk t rest).2 = some (d, v, k) := by
            rw [hF]; exact hres
          have IH := ih hs' d v k hres2
          rw [hF] at IH
          obtain ⟨IH1, IH2, IH3, IH4, IH5, IH6⟩ := IH
          have hlk : lookupEntry rest k ≠ none := by
            intro hn
            rw [valueAt, hn] at IH3
            exact Option.noConfusion IH3
          obtain ⟨e1, he1⟩ := Option.ne_none_iff_exists'.mp hlk
          have hk0k : k0 < k := hp (k, e1) (lookupEntry_mem rest k e1 he1)
          have hkk0 : ¬ k = k0 := by
            intro h
            rw [h] at hk0k
            exact Nat.lt_irrefl _ hk0k
          refine ⟨IH1, ?_, ?_, ?_, ?_, ?_⟩
          · simpa [dtorAt, lookupEntry, hkk0] using IH2
          · simpa [valueAt, lookupEntry, hkk0] using IH3
          · simpa [valueAt, lookupEntry, hkk0] using IH4
          · intro k' hk' hklt
            by_cases h0 : k' = k0
            · subst h0
              constructor
              · simp [valueAt, lookupEntry, hd]
              · intro hv
                rw [valueAt, lookupEntry, if_pos rfl] at hv
                simp only [Option.some_bind] at hv
                exact absurd hd hv
            · have hI := IH5 k' hk' hklt
              constructor
              · simpa [valueAt, lookupEntry, h0] using hI.1
              · intro hv
                rw [valueAt, lookupEntry, if_neg h0] at hv
                rw [dtorAt, lookupEntry, if_neg h0]
                exact hI.2 hv
          · intro k' hk'
            have h0 : ¬ k' = k0 := by
              intro h
              rw [h] at hk'
              exact Nat.lt_irrefl _ (Nat.lt_trans hk0k hk')
            simpa [lookupEntry, h0] using IH6 k' hk'

/-- C1: `fetch_tls_dtor(lastKey, t)` on a sorted registry scans in ascending
key order strictly after `lastKey` (from the smallest key when `lastKey` is
none).  It never changes the key set, any entry's destructor reference, any
other thread's values, or anything outside the scanned range (nor the
non-registry state components).  When it returns `(d, v, k)`: `k` is in
range, carried destructor `d` and value `v` for `t`, the value is now
removed, every in-range key before `k` has `t`'s value removed and was
destructor-less if it held one (so `k` is the first in-range key with both a
value and a destructor), and entries after `k` are untouched.  When it
returns `none`, the whole in-range suffix has `t`'s values removed, and any
in-range key that held a value is destructor-less — drained without being
returned. -/
theorem fetch_tls_dtor_scan_spec :
    ∀ (s : TlsData) (lastKey : Option TlsKey) (t : ThreadId),
      SortedKeys s.keys →
      (fetch_tls_dtor lastKey t s).1.next_key = s.next_key ∧
      (fetch_tls_dtor lastKey t s).1.global_dtors = s.global_dtors ∧
      (fetch_tls_dtor lastKey t s).1.dtors_running = s.dtors_running ∧
      (fetch_tls_dtor lastKey t s).1.keys.map Prod.fst = s.keys.map Prod.fst ∧
      (∀ k, tlsDtor (fetch_tls_dtor lastKey t s).1 k = tlsDtor s k) ∧
      (∀ k t', t' ≠ t →
        tlsValue (fetch_tls_dtor lastKey t s).1 k t' = tlsValue s k t') ∧
      (∀ k, afterKey lastKey k = false →
        lookupEntry (fetch_tls_dtor lastKey t s).1.keys k =
          lookupEntry s.keys k) ∧
      (match (fetch_tls_dtor lastKey t s).2 with
       | some (d, v, k) =>
         afterKey lastKey k = true ∧
         tlsDtor s k = some (some d) ∧
         tlsValue s k t = some v ∧
         tlsValue (fetch_tls_dtor lastKey t s).1 k t = none ∧
         (∀ k', afterKey lastKey k' = true → k' < k →
           tlsValue (fetch_tls_dtor lastKey t s).1 k' t = none ∧
           (tlsValue s k' t ≠ none → tlsDtor s k' = some none)) ∧
         (∀ k', k < k' →
           lookupEntry (fetch_tls_dtor lastKey t s).1.keys k' =
             lookupEntry s.keys k')
       | none =>
         ∀ k', afterKey lastKey k' = true →
           tlsValue (fetch_tls_dtor lastKey t s).1 k' t = none ∧
           (tlsValue s k' t ≠ none → tlsDtor s k' = some none)) := by
  intro s lastKey t hs
  rw [fetch_tls_dtor_eq]
  refine ⟨rfl, rfl, rfl, fetchAux_map_fst lastKey t s.keys, ?_, ?_, ?_, ?_⟩
  · exact fun k => fetchAux_dtorAt lastKey t s.keys k
  · exact fun k t' ht' => fetchAux_other_thread lastKey t s.keys k t' ht'
  · exact fun k hk => fetchAux_outside_range lastKey t s.keys k hk
  · cases hres : (fetchAux lastKey t s.keys).2 with
    | none =>
      exact fun k' hk' => fetchAux_none_spec lastKey t s.keys hres k' hk'
    | some x =>
      obtain ⟨d, v, k⟩ := x
      exact fetchAux_some_spec lastKey t s.keys hs d v k hres

/-- Witness for C1: the scan specification instantiated on the concrete
A/B/C registry, resuming after key 1, for thread 0 (the sortedness
hypothesis is discharged by computation). -/
theorem fetch_tls_dtor_scan_spec_witness :
    SortedKeys abcState.keys ∧
    ((fetch_tls_dtor (some 1) 0 abcState).1.next_key = abcState.next_key ∧
     (fetch_tls_dtor (some 1) 0 abcState).1.global_dtors =
       abcState.global_dtors ∧
     (fetch_tls_dtor (some 1) 0 abcState).1.dtors_running =
       abcState.dtors_running ∧
     (fetch_tls_dtor (some 1) 0 abcState).1.keys.map Prod.fst =
       abcState.keys.map Prod.fst ∧
     (∀ k, tlsDtor (fetch_tls_dtor (some 1) 0 abcState).1 k =
       tlsDtor abcState k) ∧
     (∀ k t', t' ≠ 0 →
       tlsValue (fetch_tls_dtor (some 1) 0 abcState).1 k t' =
         tlsValue abcState k t') ∧
     (∀ k, afterKey (some 1) k = false →
       lookupEntry (fetch_tls_dtor (some 1) 0 abcState).1.keys k =
         lookupEntry abcState.keys k) ∧
     (match (fetch_tls_dtor (some 1) 0 abcState).2 with
      | some (d, v, k) =>
        afterKey (some 1) k = true ∧
        tlsDtor abcState k = some (some d) ∧
        tlsValue abcState k 0 = some v ∧
        tlsValue (fetch_tls_dtor (some 1) 0 abcState).1 k 0 = none ∧
        (∀ k', afterKey (some 1) k' = true → k' < k →
          tlsValue (fetch_tls_dtor (some 1) 0 abcState).1 k' 0 = none ∧
          (tlsValue abcState k' 0 ≠ none → tlsDtor abcState k' = some none)) ∧
        (∀ k', k < k' →
          lookupEntry (fetch_tls_dtor (some 1) 0 abcState).1.keys k' =
            lookupEntry abcState.keys k')
      | none =>
        ∀ k', afterKey (some 1) k' = true →
          tlsValue (fetch_tls_dtor (some 1) 0 abcState).1 k' 0 = none ∧
          (tlsValue abcState k' 0 ≠ none → tlsDtor abcState k' = some none))) :=
  ⟨by decide, fetch_tls_dtor_scan_spec abcState (some 1) 0 (by decide)⟩

/-- A scan over entries that hold no value for the thread returns nothing
and leaves the registry exactly as it was. -/
theorem fetchAux_no_values_id (lk : Option TlsKey) (t : ThreadId) :
    ∀ l, (∀ p ∈ l, dataLookup t p.2.data = none) → fetchAux lk t l = (l, none) := by
  intro l
  induction l with
  | nil => intro _; rfl
  | cons p rest ih =>
    obtain ⟨k0, e0⟩ := p
    intro h
    have h0 : dataLookup t e0.data = none := h (k0, e0) (List.mem_cons_self _ _)
    have hrest := ih (fun q hq => h q (List.mem_cons_of_mem _ hq))
    cases ha : afterKey lk k0 with
    | false => simp [fetchAux, ha, hrest]
    | true => simp [fetchAux, ha, h0, hrest]

/-- After a full scan (no `lastKey` bound) that returns nothing, no entry
holds a value for the thread any more. -/
theorem fetchAux_none_drains (t : ThreadId) :
    ∀ l, (fetchAux none t l).2 = none →
      ∀ p ∈ (fetchAux none t l).1, dataLookup t p.2.data = none := by
  intro l
  induction l with
  | nil =>
    intro _ p hp
    exact absurd hp (List.not_mem_nil p)
  | cons q rest ih =>
    obtain ⟨k0, e0⟩ := q
    intro hres p hp
    have ha : afterKey (none : Option TlsKey) k0 = true := rfl
    cases hd : dataLookup t e0.data with
    | some v0 =>
      cases hdt : e0.dtor with
      | some d0 => simp [fetchAux, ha, hd, hdt] at hres
      | none =>
        cases hF : fetchAux none t rest with
        | mk rest' r =>
          simp [fetchAux, ha, hd, hdt, hF] at hres hp
          rcases hp with hp | hp
          · rw [hp]
            simp [dataLookup_dataErase_self]
          · have hres2 : (fetchAux none t rest).2 = none := by rw [hF]; exact hres
            have := ih hres2 p (by rw [hF]; exact hp)
            exact this
    | none =>
      cases hF : fetchAux none t rest with
      | mk rest' r =>
        simp [fetchAux, ha, hd, hF] at hres hp
        rcases hp with hp | hp
        · rw [hp]
          exact hd
        · have hres2 : (fetchAux none t rest).2 = none := by rw [hF]; exact hres
          have := ih hres2 p (by rw [hF]; exact hp)
          exact this

/-- Once a full scan has returned nothing, scanning again from the beginning
returns nothing and does not change the state: the drained state is a
fixpoint of the full scan. -/
theorem fetch_tls_dtor_none_fixpoint (t : ThreadId) (s : TlsData)
    (h : (fetch_tls_dtor none t s).2 = none) :
    fetch_tls_dtor none t (fetch_tls_dtor none t s).1 =
      ((fetch_tls_dtor none t s).1, none) := by
  cases hF : fetchAux none t s.keys with
  | mk L r =>
    have h2 : r = none := by
      rw [fetch_tls_dtor_eq, hF] at h
      exact h
    subst h2
    have hdr := fetchAux_none_drains t s.keys (by rw [hF])
    rw [hF] at hdr
    have hid : fetchAux none t L = (L, none) := fetchAux_no_values_id none t L hdr
    simp [fetch_tls_dtor_eq, hF, hid]

/-- Every event emitted by the per-key loop is a per-key destructor
invocation. -/
theorem drainLoop_perKey (act : DtorEffect) (t : ThreadId) :
    ∀ (fuel : Nat) (cur : Option (Dtor × Scalar × TlsKey)) (s : TlsData),
      ∀ ev ∈ (drainLoop act t fuel cur s).2.1,
        ∃ d v, ev = CallEvent.keyDtor d v := by
  intro fuel
  induction fuel with
  | zero =>
    intro cur s ev hev
    cases cur with
    | none => exact absurd hev (List.not_mem_nil ev)
    | some x => exact absurd hev (List.not_mem_nil ev)
  | succ n ih =>
    intro cur s ev hev
    cases cur with
    | none => exact absurd hev (List.not_mem_nil ev)
    | some x =>
      obtain ⟨d, v, k⟩ := x
      simp only [drainLoop, List.mem_cons] at hev
      rcases hev with hev | hev
      · exact ⟨d, v, hev⟩
      · exact ih _ _ ev hev

/-- If the loop exits by itself from a state whose pending fetch result was
produced by a full scan, the final state is a fixpoint of the full scan. -/
theorem drainLoop_fixpoint (act : DtorEffect) (t : ThreadId) :
    ∀ (fuel : Nat) (cur : Option (Dtor × Scalar × TlsKey)) (s : TlsData),
      (cur = none → fetch_tls_dtor none t s = (s, none)) →
      (drainLoop act t fuel cur s).2.2 = true →
      fetch_tls_dtor none t (drainLoop act t fuel cur s).1 =
        ((drainLoop act t fuel cur s).1, none) := by
  intro fuel
  induction fuel with
  | zero =>
    intro cur s hc hok
    cases cur with
    | none =>
      simpa [drainLoop] using hc rfl
    | some x => simp [drainLoop] at hok
  | succ n ih =>
    intro cur s hc hok
    cases cur with
    | none =>
      simpa [drainLoop] using hc rfl
    | some x =>
      obtain ⟨d, v, k⟩ := x
      cases hf : fetch_tls_dtor (some k) t (act d v s) with
      | mk s2 r2 =>
        cases r2 with
        | some y =>
          have hok' : (drainLoop act t n (some y) s2).2.2 = true := by
            simpa [drainLoop, hf] using hok
          have := ih (some y) s2 (fun h => Option.noConfusion h) hok'
          simpa [drainLoop, hf] using this
        | none =>
          cases hr : fetch_tls_dtor none t s2 with
          | mk s3 r3 =>
            have hok' : (drainLoop act t n r3 s3).2.2 = true := by
              simpa [drainLoop, hf, hr] using hok
            have hc' : r3 = none → fetch_tls_dtor none t s3 = (s3, none) := by
              intro h3
              subst h3
              have h2 : (fetch_tls_dtor none t s2).2 = none := by rw [hr]
              have hfix := fetch_tls_dtor_none_fixpoint t s2 h2
              rw [hr] at hfix
              exact hfix
            have := ih r3 s3 hc' hok'
            simpa [drainLoop, hf, hr] using this

/-- The per-key loop of the driver, starting from the state right after the
global-dtor stage, exits only at a fixpoint of the full scan. -/
theorem driver_fixpoint_aux (act : DtorEffect) (fuel : Nat) (t : ThreadId)
    (sg : TlsData)
    (hok : (drainLoop act t fuel (fetch_tls_dtor none t sg).2
      (fetch_tls_dtor none t sg).1).2.2 = true) :
    fetch_tls_dtor none t (drainLoop act t fuel (fetch_tls_dtor none t sg).2
        (fetch_tls_dtor none t sg).1).1 =
      ((drainLoop act t fuel (fetch_tls_dtor none t sg).2
        (fetch_tls_dtor none t sg).1).1, none) := by
  cases hfst : fetch_tls_dtor none t sg with
  | mk sF rF =>
    rw [hfst] at hok
    have hc : rF = none → fetch_tls_dtor none t sF = (sF, none) := by
      intro h
      subst h
      have h2 : (fetch_tls_dtor none t sg).2 = none := by rw [hfst]
      have hfix := fetch_tls_dtor_none_fixpoint t sg h2
      rw [hfst] at hfix
      exact hfix
    exact drainLoop_fixpoint act t fuel rF sF hc hok

/-- The A/B/C registry with a global destructor (77, `ptr 9`) installed for
thread 0. -/
def abcGlobalState : TlsData :=
  { abcState with global_dtors := [(0, (77, Scalar.ptr 9))] }

/-- C3: for every multi-pass draining session: a Global Destructor Slot
entry, when present, is invoked exactly once and strictly before any
per-key destructor (when absent no global invocation happens at all); after
running the destructor fetched at key `k` the loop fetches strictly after
`k`, and when that pass yields nothing it restarts the scan from the
beginning (`lastKey = none`); and when the loop terminates by itself the
final state is one on which a full restart scan yields nothing (and changes
nothing) — the fixpoint termination condition. -/
theorem run_tls_dtors_global_first_and_fixpoint :
    ∀ (act : DtorEffect) (fuel : Nat) (t : ThreadId) (s : TlsData),
      (∀ d a, globalLookup t s.global_dtors = some (d, a) →
        ∃ tail, (run_tls_dtors_for_active_thread act fuel t s).2.1 =
          CallEvent.globalDtor d a :: tail ∧
          ∀ ev ∈ tail, ∃ d2 v2, ev = CallEvent.keyDtor d2 v2) ∧
      (globalLookup t s.global_dtors = none →
        ∀ ev ∈ (run_tls_dtors_for_active_thread act fuel t s).2.1,
          ∃ d2 v2, ev = CallEvent.keyDtor d2 v2) ∧
      (∀ (d : Dtor) (v : Scalar) (k : TlsKey) (s1 : TlsData),
        (fetch_tls_dtor (some k) t (act d v s1)).2 = none →
        drainLoop act t (fuel + 1) (some (d, v, k)) s1 =
          (let rs := fetch_tls_dtor none t
              (fetch_tls_dtor (some k) t (act d v s1)).1
           let R := drainLoop act t fuel rs.2 rs.1
           (R.1, CallEvent.keyDtor d v :: R.2.1, R.2.2))) ∧
      ((run_tls_dtors_for_active_thread act fuel t s).2.2 = true →
        fetch_tls_dtor none t (run_tls_dtors_for_active_thread act fuel t s).1 =
          ((run_tls_dtors_for_active_thread act fuel t s).1, none)) := by
  intro act fuel t s
  refine ⟨?_, ?_, ?_, ?_⟩
  · intro d a hg
    refine ⟨(drainLoop act t fuel
        (fetch_tls_dtor none t
          (act d a { s with dtors_running := threadInsert t s.dtors_running })).2
        (fetch_tls_dtor none t
          (act d a { s with dtors_running := threadInsert t s.dtors_running })).1).2.1,
      ?_, ?_⟩
    · simp [run_tls_dtors_for_active_thread, hg]
    · exact fun ev hev => drainLoop_perKey act t fuel _ _ ev hev
  · intro hg ev hev
    simp only [run_tls_dtors_for_active_thread, hg] at hev
    simp only [List.nil_append] at hev
    exact drainLoop_perKey act t fuel _ _ ev hev
  · intro d v k s1 hnone
    cases hf : fetch_tls_dtor (some k) t (act d v s1) with
    | mk s2 r2 =>
      have h2 : r2 = none := by
        rw [hf] at hnone
        exact hnone
      subst h2
      simp [drainLoop, hf]
  · intro hok
    cases hg : globalLookup t s.global_dtors with
    | some p =>
      obtain ⟨dg, ag⟩ := p
      simp only [run_tls_dtors_for_active_thread, hg] at hok ⊢
      exact driver_fixpoint_aux act fuel t
        (act dg ag { s with dtors_running := threadInsert t s.dtors_running }) hok
    | none =>
      simp only [run_tls_dtors_for_active_thread, hg] at hok ⊢
      exact driver_fixpoint_aux act fuel t
        { s with dtors_running := threadInsert t s.dtors_running } hok

/-- Witness for C3 at concrete inputs: with a global destructor installed it
heads the trace and is followed only by per-key events; the step rule
applies at a state where the pass after key 3 yields nothing; and the
completed session's final state is a fixpoint of the full scan. -/
theorem run_tls_dtors_global_first_and_fixpoint_witness :
    (globalLookup 0 abcGlobalState.global_dtors = some (77, Scalar.ptr 9) ∧
      (∃ tail,
        (run_tls_dtors_for_active_thread dtorActNoop 10 0 abcGlobalState).2.1 =
          CallEvent.globalDtor 77 (Scalar.ptr 9) :: tail ∧
        ∀ ev ∈ tail, ∃ d2 v2, ev = CallEvent.keyDtor d2 v2)) ∧
    ((fetch_tls_dtor (some 3) 0
        (dtorActNoop 10 (Scalar.ptr 1) TlsData.default)).2 = none ∧
      drainLoop dtorActNoop 0 (10 + 1) (some (10, Scalar.ptr 1, 3))
          TlsData.default =
        (let rs := fetch_tls_dtor none 0
            (fetch_tls_dtor (some 3) 0
              (dtorActNoop 10 (Scalar.ptr 1) TlsData.default)).1
         let R := drainLoop dtorActNoop 0 10 rs.2 rs.1
         (R.1, CallEvent.keyDtor 10 (Scalar.ptr 1) :: R.2.1, R.2.2))) ∧
    ((run_tls_dtors_for_active_thread dtorActNoop 10 0 abcGlobalState).2.2 =
        true ∧
      fetch_tls_dtor none 0
          (run_tls_dtors_for_active_thread dtorActNoop 10 0 abcGlobalState).1 =
        ((run_tls_dtors_for_active_thread dtorActNoop 10 0 abcGlobalState).1,
          none)) :=
  ⟨⟨by decide,
    (run_tls_dtors_global_first_and_fixpoint dtorActNoop 10 0
      abcGlobalState).1 77 (Scalar.ptr 9) (by decide)⟩,
   ⟨by decide,
    (run_tls_dtors_global_first_and_fixpoint dtorActNoop 10 0
      abcGlobalState).2.2.1 10 (Scalar.ptr 1) 3 TlsData.default (by decide)⟩,
   ⟨by decide,
    (run_tls_dtors_global_first_and_fixpoint dtorActNoop 10 0
      abcGlobalState).2.2.2 (by decide)⟩⟩

/-- A session operation on the key registry: a `create_tls_key` call (with
its destructor argument and the platform key width) or a `delete_tls_key`
call. -/
inductive TlsOp where
  | createKey (dtor : Option Dtor) (bits : Nat)
  | deleteKey (k : TlsKey)
deriving DecidableEq, Repr

/-- Apply one operation; a successful `create` reports the key it issued. -/
def applyOp : TlsOp → TlsData → TlsData × Option TlsKey
  | TlsOp.createKey d bits, s =>
    match create_tls_key d bits s with
    | (s', Except.ok k) => (s', some k)
    | (s', Except.error _) => (s', none)
  | TlsOp.deleteKey k, s => ((delete_tls_key k s).1, none)

/-- Run a session of operations, collecting the successfully issued keys in
order. -/
def runOps : List TlsOp → TlsData → TlsData × List TlsKey
  | [], s => (s, [])
  | op :: ops, s =>
    match applyOp op s with
    | (s', r) =>
      match runOps ops s' with
      | (s'', ks) => (s'', r.toList ++ ks)

/-- Every key in the registry is below the allocation counter. -/
def KeyBound (s : TlsData) : Prop :=
  ∀ p ∈ s.keys, p.1 < s.next_key

/-- Members of a sorted insertion are the inserted pair or old members. -/
theorem mem_insertEntry (k : TlsKey) (e : TlsEntry) :
    ∀ (l : List (TlsKey × TlsEntry)) (p : TlsKey × TlsEntry),
      p ∈ insertEntry k e l → p = (k, e) ∨ p ∈ l := by
  intro l
  induction l with
  | nil =>
    intro p hp
    simp [insertEntry] at hp
    exact Or.inl hp
  | cons q rest ih =>
    obtain ⟨k', e'⟩ := q
    intro p hp
    by_cases h1 : k < k'
    · simp only [insertEntry, if_pos h1, List.mem_cons] at hp
      rcases hp with hp | hp | hp
      · exact Or.inl hp
      · exact Or.inr (by simp [hp])
      · exact Or.inr (List.mem_cons_of_mem _ hp)
    · by_cases h2 : k = k'
      · simp only [insertEntry, if_neg h1, if_pos h2, List.mem_cons] at hp
        rcases hp with hp | hp
        · exact Or.inl hp
        · exact Or.inr (List.mem_cons_of_mem _ hp)
      · simp only [insertEntry, if_neg h1, if_neg h2, List.mem_cons] at hp
        rcases hp with hp | hp
        · exact Or.inr (by simp [hp])
        · rcases ih p hp with hp' | hp'
          · exact Or.inl hp'
          · exact Or.inr (List.mem_cons_of_mem _ hp')

/-- Members of a removal were members before. -/
theorem mem_removeEntry (k : TlsKey) :
    ∀ (l : List (TlsKey × TlsEntry)) (p : TlsKey × TlsEntry),
      p ∈ removeEntry k l → p ∈ l := by
  intro l
  induction l with
  | nil =>
    intro p hp
    exact absurd hp (List.not_mem_nil p)
  | cons q rest ih =>
    obtain ⟨k', e'⟩ := q
    intro p hp
    by_cases h : k = k'
    · rw [removeEntry, if_pos h] at hp
      exact List.mem_cons_of_mem _ hp
    · rw [removeEntry, if_neg h] at hp
      rcases List.mem_cons.mp hp with hp | hp
      · exact List.mem_cons.mpr (Or.inl hp)
      · exact List.mem_cons_of_mem _ (ih p hp)

/-- `delete_tls_key` leaves the counter alone and only shrinks the key set. -/
theorem delete_tls_key_state (k : TlsKey) (s : TlsData) :
    (delete_tls_key k s).1.next_key = s.next_key ∧
    ∀ p ∈ (delete_tls_key k s).1.keys, p ∈ s.keys := by
  rw [delete_tls_key]
  cases h : lookupEntry s.keys k with
  | some e => exact ⟨rfl, fun p hp => mem_removeEntry k s.keys p hp⟩
  | none => exact ⟨rfl, fun p hp => hp⟩

/-- `applyOp` preserves the key bound and never decreases the counter; a
`create` bumps it by one and issues exactly the old counter value. -/
theorem applyOp_state (op : TlsOp) (s : TlsData) (hb : KeyBound s) :
    KeyBound (applyOp op s).1 ∧
    s.next_key ≤ (applyOp op s).1.next_key ∧
    ∀ k ∈ (applyOp op s).2, k = s.next_key ∧
      (applyOp op s).1.next_key = s.next_key + 1 := by
  cases op with
  | createKey d bits =>
    have hfst : (applyOp (TlsOp.createKey d bits) s).1 =
        { s with
          next_key := s.next_key + 1,
          keys := insertEntry s.next_key { data := [], dtor := d } s.keys } := by
      rw [applyOp]
      cases hc : create_tls_key d bits s with
      | mk s' r =>
        have : s' = (create_tls_key d bits s).1 := by rw [hc]
        cases r with
        | ok k => simpa [this] using create_tls_key_fst d bits s
        | error e => simpa [this] using create_tls_key_fst d bits s
    have hkb : KeyBound (applyOp (TlsOp.createKey d bits) s).1 := by
      rw [hfst]
      intro p hp
      rcases mem_insertEntry s.next_key { data := [], dtor := d } s.keys p hp
        with hp' | hp'
      · rw [hp']
        exact Nat.lt_succ_self _
      · exact Nat.lt_trans (hb p hp') (Nat.lt_succ_self _)
    refine ⟨hkb, ?_, ?_⟩
    · rw [hfst]
      exact Nat.le_succ _
    · intro k hk
      rw [applyOp] at hk
      revert hk
      cases hc : create_tls_key d bits s with
      | mk s' r =>
        cases r with
        | ok k0 =>
          intro hk
          simp only [Option.mem_def, Option.some.injEq] at hk
          have hk0 : k0 = s.next_key := by
            have := hc
            rw [create_tls_key] at this
            revert this
            split
            · intro h
              exact absurd (congrArg Prod.snd h).symm (by simp)
            · intro h
              have := (congrArg Prod.snd h).symm
              simpa using this
          constructor
          · rw [← hk, hk0]
          · rw [hfst]
        | error e =>
          intro hk
          simp at hk
  | deleteKey k =>
    obtain ⟨hn, hm⟩ := delete_tls_key_state k s
    refine ⟨?_, ?_, ?_⟩
    · intro p hp
      rw [applyOp, hn]
      exact hb p (hm p (by simpa [applyOp] using hp))
    · rw [applyOp, hn]
    · intro k' hk'
      simp [applyOp] at hk'

/-- A key no member carries is not found. -/
theorem lookupEntry_eq_none_of_forall_ne (k : TlsKey)
    (l : List (TlsKey × TlsEntry)) (h : ∀ p ∈ l, p.1 ≠ k) :
    lookupEntry l k = none := by
  induction l with
  | nil => rfl
  | cons p rest ih =>
    obtain ⟨k0, e0⟩ := p
    have hne : ¬ k = k0 :=
      fun hk => (h (k0, e0) (List.mem_cons_self _ _)) hk.symm
    rw [lookupEntry, if_neg hne]
    exact ih (fun q hq => h q (List.mem_cons_of_mem _ hq))

/-- Session invariant: running any operation list preserves the key bound,
never decreases the counter, issues only keys in `[start, final)`, and
issues them in strictly increasing order. -/
theorem runOps_state (ops : List TlsOp) :
    ∀ (s : TlsData), KeyBound s →
      KeyBound (runOps ops s).1 ∧
      s.next_key ≤ (runOps ops s).1.next_key ∧
      (∀ k ∈ (runOps ops s).2,
        s.next_key ≤ k ∧ k < (runOps ops s).1.next_key) ∧
      ((runOps ops s).2).Pairwise (· < ·) := by
  induction ops with
  | nil =>
    intro s hb
    exact ⟨hb, Nat.le_refl _, fun k hk => absurd hk (List.not_mem_nil k),
      List.Pairwise.nil⟩
  | cons op ops ih =>
    intro s hb
    obtain ⟨hb', hle, hiss⟩ := applyOp_state op s hb
    obtain ⟨ihb, ihle, ihmem, ihpw⟩ := ih (applyOp op s).1 hb'
    cases hA : applyOp op s with
    | mk s' r =>
      rw [hA] at hb' hle hiss ihb ihle ihmem ihpw
      cases hR : runOps ops s' with
      | mk s'' ks =>
        rw [hR] at ihb ihle ihmem ihpw
        have hrun : runOps (op :: ops) s = (s'', r.toList ++ ks) := by
          simp only [runOps, hA]
          rw [hR]
        rw [hrun]
        refine ⟨ihb, Nat.le_trans hle ihle, ?_, ?_⟩
        · intro k hk
          rcases List.mem_append.mp hk with hk | hk
          · have hr : r = some k := by
              cases r with
              | none => exact absurd hk (List.not_mem_nil k)
              | some k0 =>
                simp only [Option.toList_some, List.mem_singleton] at hk
                rw [hk]
            obtain ⟨hkeq, hbump⟩ := hiss k (by rw [hr]; rfl)
            constructor
            · exact Nat.le_of_eq hkeq.symm
            · calc k = s.next_key := hkeq
                _ < s.next_key + 1 := Nat.lt_succ_self _
                _ = s'.next_key := hbump.symm
                _ ≤ s''.next_key := ihle
          · obtain ⟨ha, hb2⟩ := ihmem k hk
            exact ⟨Nat.le_trans hle ha, hb2⟩
        · cases r with
          | none => simpa using ihpw
          | some k0 =>
            obtain ⟨hkeq, hbump⟩ := hiss k0 rfl
            simp only [Option.toList_some, List.singleton_append]
            refine List.pairwise_cons.mpr ⟨?_, ihpw⟩
            intro b hbks
            obtain ⟨hab, _⟩ := ihmem b hbks
            calc k0 = s.next_key := hkeq
              _ < s.next_key + 1 := Nat.lt_succ_self _
              _ = s'.next_key := hbump.symm
              _ ≤ b := hab

/-- C6: across any session of create/delete operations from the initial
state, the successfully issued keys are strictly increasing in order of
issue (hence unique and never reused after a deletion), every issued key is
at least 1 (0 is never issued) and stays below the final counter (the
counter exceeds every key ever issued, an invariant preserved by every
operation), every registered key stays below the counter, and the next
allocation's slot is always absent from the registry — allocation always
inserts into a fresh slot. -/
theorem create_keys_strictly_increasing :
    ∀ (ops : List TlsOp),
      ((runOps ops TlsData.default).2).Pairwise (· < ·) ∧
      (∀ k ∈ (runOps ops TlsData.default).2,
        1 ≤ k ∧ k < (runOps ops TlsData.default).1.next_key) ∧
      ((runOps ops TlsData.default).2).Nodup ∧
      KeyBound (runOps ops TlsData.default).1 ∧
      lookupEntry (runOps ops TlsData.default).1.keys
        (runOps ops TlsData.default).1.next_key = none := by
  intro ops
  have hb : KeyBound TlsData.default :=
    fun p hp => absurd hp (List.not_mem_nil p)
  obtain ⟨h1, _, h3, h4⟩ := runOps_state ops TlsData.default hb
  refine ⟨h4, ?_, ?_, h1, ?_⟩
  · intro k hk
    exact h3 k hk
  · exact h4.imp (fun h => Nat.ne_of_lt h)
  · exact lookupEntry_eq_none_of_forall_ne _ _
      (fun p hp => Nat.ne_of_lt (h1 p hp))
